import Mathlib

/-!
Shallow embedding of the persistence and recovery engine of
`hajimi-cli-sync` (`src-tauri/src`): the provider registry DAO
(`database/dao/providers.rs`), the crash-recovery journal DAO
(`database/dao/backup.rs`), the backup-rotation utilities and the atomic
file writer (`utils.rs`), the switch orchestrator and the startup
recovery procedure (`lib.rs`).

The SQLite tables are embedded as Lean lists of rows; each DAO function
becomes a pure function on these lists, following the SQL it executes
statement by statement.  File-system state is a list of (path, content,
mtime) entries; the out-of-scope per-application adapters are oracles
(functions supplied as an environment), exactly the interface boundary
of the source.
-/

namespace HajimiSync

/-- One row of the `providers` table (`ProviderRecord` in
`database/dao/providers.rs`).  `id` is the primary key. -/
structure ProviderRecord where
  id : String
  name : String
  url : String
  api_key : String
  default_model : String
  per_cli_models : String
  is_current : Bool
  sort_index : Option Int
  notes : Option String
  created_at : Int
deriving Repr, DecidableEq

/-- The `providers` table: a list of rows.  The `PRIMARY KEY (id)`
constraint of `schema.rs` is carried as a `Nodup` hypothesis on
`table.map (fun r => r.id)` where a proof needs it. -/
abbrev ProvidersTable := List ProviderRecord

/-- Rust `save` (providers.rs): `INSERT ... ON CONFLICT(id) DO UPDATE` after
re-reading the stored `is_current`.  On conflict the UPDATE clause sets
every column except `is_current` and `created_at` from the argument; on
a fresh insert the bound `is_current` value is the re-read one, which is
`0` (false) because no row with that id exists. -/
def save (table : ProvidersTable) (p : ProviderRecord) : ProvidersTable :=
  if table.any (fun r => r.id = p.id) then
    table.map (fun r =>
      if r.id = p.id then
        { r with
          name := p.name
          url := p.url
          api_key := p.api_key
          default_model := p.default_model
          per_cli_models := p.per_cli_models
          sort_index := p.sort_index
          notes := p.notes }
      else r)
  else
    table ++ [{ p with is_current := false }]

/-- Error message of `set_current` when the id does not exist. -/
def notFoundMsg (id : String) : String := "Provider not found: " ++ id

/-- Rust `set_current` (providers.rs): pre-check `COUNT(*) WHERE id`, then in
one transaction `UPDATE providers SET is_current = 0` followed by
`UPDATE providers SET is_current = 1 WHERE id = ?1`. -/
def set_current (table : ProvidersTable) (id : String) :
    Except String ProvidersTable :=
  if table.countP (fun r => r.id = id) = 0 then
    .error (notFoundMsg id)
  else
    .ok ((table.map (fun r => { r with is_current := false })).map
      (fun r => if r.id = id then { r with is_current := true } else r))

/-- Error message of `delete` when the target row is active. -/
def providerInUseMsg : String :=
  "Cannot delete the active provider — switch to another provider first."

/-- Rust `delete` (providers.rs): pre-check
`SELECT COALESCE(is_current, 0) ... WHERE id = ?1` (first matching row,
`0` when absent); refuse when it is `1`, else `DELETE ... WHERE id = ?1`
in a transaction. -/
def delete (table : ProvidersTable) (id : String) :
    Except String ProvidersTable :=
  let cur := ((table.find? (fun r => r.id = id)).map
    (fun r => r.is_current)).getD false
  if cur then .error providerInUseMsg
  else .ok (table.filter (fun r => ¬ r.id = id))

/-- A registry mutation, for stating the single-active invariant over
sequences of calls. -/
inductive RegOp where
  | save (p : ProviderRecord)
  | setCurrent (id : String)
  | del (id : String)

/-- Apply one registry operation; an operation that returns an error
leaves the table as it was (the transaction never committed). -/
def applyOp (table : ProvidersTable) : RegOp → ProvidersTable
  | .save p => save table p
  | .setCurrent id =>
    match set_current table id with
    | .ok t => t
    | .error _ => table
  | .del id =>
    match delete table id with
    | .ok t => t
    | .error _ => table

/-- Number of rows with `is_current = true`. -/
def currentCount (table : ProvidersTable) : Nat :=
  table.countP (fun r => r.is_current)

/-- The `PRIMARY KEY (id)` constraint: ids are pairwise distinct. -/
def NodupIds (table : ProvidersTable) : Prop :=
  (table.map (fun r => r.id)).Nodup

/-- The registry invariant: valid ids and at most one current row. -/
def RegistryInv (table : ProvidersTable) : Prop :=
  NodupIds table ∧ currentCount table ≤ 1

-- ── Crash-recovery journal (`database/dao/backup.rs`) ────────────────────────

/-- One row of the `config_backup` table; `app_type` is the primary key. -/
structure SnapshotRow where
  app_type : String
  original_config : String
  backed_up_at : String
deriving Repr, DecidableEq

/-- The `config_backup` table. -/
abbrev Journal := List SnapshotRow

/-- Rust `save_backup` (backup.rs): `INSERT OR IGNORE` keyed on `app_type` —
a row for an existing key leaves the table unchanged. -/
def save_backup (j : Journal) (ty content now : String) : Journal :=
  if j.any (fun r => r.app_type = ty) then j
  else j ++ [⟨ty, content, now⟩]

/-- Rust `get_backup` (backup.rs): first row for the key, if any. -/
def get_backup (j : Journal) (ty : String) : Option String :=
  (j.find? (fun r => r.app_type = ty)).map (fun r => r.original_config)

/-- Rust `delete_backup` (backup.rs): `DELETE ... WHERE app_type = ?1`. -/
def delete_backup (j : Journal) (ty : String) : Journal :=
  j.filter (fun r => ¬ r.app_type = ty)

/-- Rust `list_app_types` (backup.rs): `SELECT app_type FROM config_backup`. -/
def list_app_types (j : Journal) : List String :=
  j.map (fun r => r.app_type)

-- ── Switch orchestrator (`lib.rs`, `switch_provider`) ────────────────────────

/-- Per-application result entry (`SyncResult` in lib.rs). -/
structure SyncResult where
  app : String
  success : Bool
  error : Option String
deriving Repr, DecidableEq

/-- Result of `switch_provider` (`SwitchResult` in lib.rs). -/
structure SwitchResult where
  success : Bool
  errors : List SyncResult
deriving Repr, DecidableEq

/-- The `ExtraClient` enum (`extra_clients.rs`). -/
inductive ExtraClient where
  | ClaudeVSCode | Chatbox | CherryStudio | Jan | Cursor | Cline
  | RooCode | KiloCode | SillyTavern | LobeChat | BoltAI
deriving Repr, DecidableEq

/-- Rust `ExtraClient::as_str`. -/
def ExtraClient.as_str : ExtraClient → String
  | .ClaudeVSCode => "claude-vscode"
  | .Chatbox => "chatbox"
  | .CherryStudio => "cherry-studio"
  | .Jan => "jan"
  | .Cursor => "cursor"
  | .Cline => "cline"
  | .RooCode => "roo-code"
  | .KiloCode => "kilo-code"
  | .SillyTavern => "sillytavern"
  | .LobeChat => "lobechat"
  | .BoltAI => "boltai"

/-- Rust `ExtraClient::all`. -/
def ExtraClient.all : List ExtraClient :=
  [.ClaudeVSCode, .Chatbox, .CherryStudio, .Jan, .Cursor, .Cline,
   .RooCode, .KiloCode, .SillyTavern, .LobeChat, .BoltAI]

/-- Rust `ExtraClient::supports_file_sync`. -/
def ExtraClient.supports_file_sync : ExtraClient → Bool
  | .Chatbox | .CherryStudio | .Jan | .SillyTavern => true
  | _ => false

/-- The fixed core list `all_apps` of `switch_provider`. -/
def coreApps : List String :=
  ["claude", "codex", "gemini", "opencode", "openclaw", "droid"]

/-- The full fixed, deterministic application sequence the orchestrator
iterates: the core apps loop, then the extra-clients loop restricted to
`supports_file_sync` clients. -/
def switchApps : List String :=
  coreApps ++ (ExtraClient.all.filter ExtraClient.supports_file_sync).map
    ExtraClient.as_str

/-- Environment of out-of-scope collaborators of `switch_provider`:
whether each application is installed, what `read_config_snapshot` /
`read_extra_config_content` returns (`none` on any read error — the
code discards errors there), and what the per-application adapter sync
call returns (`none` = `Ok`, `some e` = `Err e`). -/
structure SwitchEnv where
  installed : String → Bool
  readSnapshot : String → Option String
  syncError : String → Option String
  now : String

/-- Mutable state `switch_provider` touches, plus a trace of which
adapter sync entry points were invoked (each sync call is the only
place a config file of that application gets written). -/
structure SwitchState where
  providers : ProvidersTable
  journal : Journal
  syncedApps : List String
deriving Repr, DecidableEq

/-- One iteration of the per-application loop of `switch_provider`
(both loops share this shape): skip if not installed; best-effort read
the config and `save_backup` it; invoke the adapter sync; on success
`delete_backup`, on failure keep the journal row and append a
per-application error. -/
def switchApp (env : SwitchEnv) (acc : SwitchState × List SyncResult)
    (app : String) : SwitchState × List SyncResult :=
  let st := acc.1
  let errors := acc.2
  if env.installed app then
    let j1 :=
      match env.readSnapshot app with
      | some content => save_backup st.journal app content env.now
      | none => st.journal
    match env.syncError app with
    | none =>
      ({ st with
          journal := delete_backup j1 app
          syncedApps := st.syncedApps ++ [app] }, errors)
    | some e =>
      ({ st with
          journal := j1
          syncedApps := st.syncedApps ++ [app] },
       errors ++ [⟨app, false, some e⟩])
  else acc

/-- Rust `switch_provider` (lib.rs): resolve the target by id up front and
fail fast if absent; run the per-application loop over the fixed list;
finally `set_current(id)` unconditionally and report
`success = errors.is_empty()`.  The returned state is the state at the
point of return (an early error performs no mutation). -/
def switch_provider (env : SwitchEnv) (st : SwitchState) (id : String) :
    SwitchState × Except String SwitchResult :=
  match st.providers.find? (fun p => p.id = id) with
  | none => (st, .error (notFoundMsg id))
  | some _target =>
    let res := switchApps.foldl (switchApp env) (st, [])
    match set_current res.1.providers id with
    | .error e => (res.1, .error e)
    | .ok provs =>
      ({ res.1 with providers := provs },
       .ok ⟨res.2.isEmpty, res.2⟩)

-- ── Startup recovery (`lib.rs`, `recover_from_crash`) ────────────────────────

/-- Trace element: which restore entry point ran for an app during
crash recovery — the verbatim snapshot write-back
(`restore_from_snapshot`) or the adapter's own backup-file restore
(`restore_via_module`). -/
inductive RestoreCall where
  | snap (app : String)
  | viaModule (app : String)
deriving Repr, DecidableEq

/-- Environment of `recover_from_crash`: the outcome of
`restore_from_snapshot app content` and of `restore_via_module app`
(`none` = `Ok`, `some e` = `Err e`). -/
structure RecoverEnv where
  restoreSnapshotErr : String → String → Option String
  restoreModuleErr : String → Option String

/-- One iteration of `recover_from_crash`'s loop: read the journal
snapshot; if present, run the verbatim write-back, otherwise run the
module's backup-file restore; delete the journal row only on success,
keep it on failure. -/
def recoverApp (env : RecoverEnv) (acc : Journal × List RestoreCall)
    (ty : String) : Journal × List RestoreCall :=
  let j := acc.1
  let trace := acc.2
  match get_backup j ty with
  | some content =>
    match env.restoreSnapshotErr ty content with
    | none => (delete_backup j ty, trace ++ [.snap ty])
    | some _e => (j, trace ++ [.snap ty])
  | none =>
    match env.restoreModuleErr ty with
    | none => (delete_backup j ty, trace ++ [.viaModule ty])
    | some _e => (j, trace ++ [.viaModule ty])

/-- Rust `recover_from_crash` (lib.rs): iterate the pending app types and
run `recoverApp` for each; returns the final journal and the trace of
restore entry points invoked. -/
def recover_from_crash (env : RecoverEnv) (j : Journal) :
    Journal × List RestoreCall :=
  (list_app_types j).foldl (recoverApp env) (j, [])

-- ── File-system model and backup rotation (`utils.rs`) ───────────────────────

/-- One file on disk: path, content, modification time. -/
structure FileEntry where
  path : String
  content : String
  mtime : Nat
deriving Repr, DecidableEq

/-- The (single-directory) file-system state; every backup artifact is
colocated with the config file, so plain names serve as paths. -/
abbrev FS := List FileEntry

/-- Rust `Path::exists`. -/
def fileExists (fs : FS) (p : String) : Bool :=
  fs.any (fun e => e.path = p)

/-- Read a file's content (first entry for the path). -/
def readFile (fs : FS) (p : String) : Option String :=
  (fs.find? (fun e => e.path = p)).map (fun e => e.content)

/-- Write (create or overwrite) a file, as `fs::copy` onto the
destination does: replace the entry in place or append a fresh one. -/
def writeEntry (fs : FS) (p c : String) (t : Nat) : FS :=
  if fs.any (fun e => e.path = p) then
    fs.map (fun e => if e.path = p then ⟨p, c, t⟩ else e)
  else fs ++ [⟨p, c, t⟩]

/-- Rust `create_backup` (utils.rs): no-op when the source does not exist or
the backup (`path + suffix`) already exists; otherwise copy the current
content to the backup path. -/
def create_backup (fs : FS) (path suffix : String) (now : Nat) : FS :=
  if fileExists fs path then
    if fileExists fs (path ++ suffix) then fs
    else
      match readFile fs path with
      | some content => writeEntry fs (path ++ suffix) content now
      | none => fs
  else fs

/-- Rust `BACKUP_RETAIN_COUNT` (utils.rs). -/
def BACKUP_RETAIN_COUNT : Nat := 5

/-- The filter of `cleanup_old_backups`: names that start with
`base ++ "."`, end with `suffix` and are not the "latest" backup
`base ++ suffix`. -/
def isRotatedName (base suffix name : String) : Bool :=
  name.startsWith (base ++ ".") && name.endsWith suffix &&
    name ≠ base ++ suffix

/-- Stable insertion into an mtime-ascending list (an element goes
after every element whose mtime is not larger). -/
def insertByMtime : List FileEntry → FileEntry → List FileEntry
  | [], e => [e]
  | x :: xs, e =>
    if x.mtime ≤ e.mtime then x :: insertByMtime xs e else e :: x :: xs

/-- The stable `sort_by_key(modified)` of `cleanup_old_backups`:
oldest first. -/
def sortByMtime (l : List FileEntry) : List FileEntry :=
  l.foldl insertByMtime []

/-- Failure oracles for the file-system calls of `cleanup_old_backups`:
whether `fs::read_dir` succeeds, and whether `fs::remove_file` succeeds
on a given path (a failed removal is logged and the file stays). -/
structure BackupEnv where
  readDirOk : Bool
  removeOk : String → Bool

/-- Error type for the backup-rotation embedding, mirroring the
`SyncError` variants these functions construct. -/
inductive BackupErr where
  | FileWriteFailed (path : String)
  | Other (msg : String)
deriving Repr, DecidableEq

/-- Rust `cleanup_old_backups` (utils.rs): list the directory (an error here
is returned to the caller); keep only timestamped backups of this base
path; if more than `BACKUP_RETAIN_COUNT`, sort ascending by mtime and
remove the oldest surplus — each removal failure is logged and skipped,
never returned. -/
def cleanup_old_backups (env : BackupEnv) (fs : FS) (base suffix : String) :
    Except BackupErr FS :=
  if env.readDirOk then
    let backups := fs.filter (fun e => isRotatedName base suffix e.path)
    if backups.length ≤ BACKUP_RETAIN_COUNT then .ok fs
    else
      let sorted := sortByMtime backups
      let toRemove := sorted.take (backups.length - BACKUP_RETAIN_COUNT)
      .ok (fs.filter (fun e =>
        ¬ (toRemove.any (fun r => r.path = e.path) ∧ env.removeOk e.path)))
  else .error (.Other "Failed to read dir")

/-- Rust `create_rotated_backup` (utils.rs): `Ok none` when the source does
not exist; otherwise create the "latest" backup (`path ++ suffix`) only
if absent, always create the timestamped backup
(`path ++ "." ++ timestamp ++ suffix`), then prune — a pruning error
propagates (the `?` on `cleanup_old_backups`).  The returned pair keeps
the file-system state at the point of return. -/
def create_rotated_backup (env : BackupEnv) (fs : FS)
    (path suffix timestamp : String) (now : Nat) :
    FS × Except BackupErr (Option String) :=
  if fileExists fs path then
    match readFile fs path with
    | some content =>
      let fs1 :=
        if fileExists fs (path ++ suffix) then fs
        else writeEntry fs (path ++ suffix) content now
      let bpath := path ++ "." ++ timestamp ++ suffix
      let fs2 := writeEntry fs1 bpath content now
      match cleanup_old_backups env fs2 path suffix with
      | .error e => (fs2, .error e)
      | .ok fs3 => (fs3, .ok (some bpath))
    | none => (fs, .ok none)
  else (fs, .ok none)

-- ── Atomic file writer (`utils.rs`, `atomic_write_with_retry`) ───────────────

/-- The errors a single `try_atomic_write` attempt can produce. -/
inductive AttemptErr where
  | PermissionDenied
  | FileWriteFailed
deriving Repr, DecidableEq

/-- The error type `atomic_write_with_retry` can return. -/
inductive WriteErr where
  | PermissionDenied
  | FileWriteFailed
  | DirectoryCreationFailed
  | Timeout
deriving Repr, DecidableEq

/-- Injection of an attempt failure into the writer's error type. -/
def AttemptErr.toWriteErr : AttemptErr → WriteErr
  | .PermissionDenied => .PermissionDenied
  | .FileWriteFailed => .FileWriteFailed

/-- The retry loop of `atomic_write_with_retry`, from attempt `i`:
on success return `Ok`; on failure retry while `i < max_retries - 1`,
else return the attempt's error; falling out of the loop yields the
trailing `Timeout` return.  `attempt n` is the outcome of
`try_atomic_write` on iteration `n` (`none` = success). -/
def retryFrom (attempt : Nat → Option AttemptErr) (max_retries : Nat) :
    Nat → Except WriteErr Unit
  | i =>
    if _h : i < max_retries then
      match attempt i with
      | none => .ok ()
      | some e =>
        if i < max_retries - 1 then retryFrom attempt max_retries (i + 1)
        else .error e.toWriteErr
    else .error .Timeout
termination_by i => max_retries - i
decreasing_by omega

/-- Rust `atomic_write_with_retry` (utils.rs): ensure the parent directory
exists (failure is `DirectoryCreationFailed` before any attempt), then
run the bounded retry loop from attempt `0`. -/
def atomic_write_with_retry (dirOk : Bool)
    (attempt : Nat → Option AttemptErr) (max_retries : Nat) :
    Except WriteErr Unit :=
  if dirOk then retryFrom attempt max_retries 0
  else .error .DirectoryCreationFailed

/-- Rust `atomic_write` (utils.rs): the default five-attempt writer. -/
def atomic_write (dirOk : Bool) (attempt : Nat → Option AttemptErr) :
    Except WriteErr Unit :=
  atomic_write_with_retry dirOk attempt 5

-- ── Derived specification values ─────────────────────────────────────────────

/-- The per-application error list the orchestrator accumulates: one
entry per installed application whose adapter sync failed, in the
fixed application order. -/
def expectedErrors (env : SwitchEnv) (apps : List String) : List SyncResult :=
  apps.filterMap (fun a =>
    if env.installed a then
      (env.syncError a).map (fun e => ⟨a, false, some e⟩)
    else none)

/-- A recovery environment in which every verbatim snapshot write-back
fails while the adapter's own backup-file restore would succeed. -/
def recoverEnvNoFallback : RecoverEnv :=
  ⟨fun _ _ => some "write failed", fun _ => none⟩

-- ── Helper lemmas: provider registry ─────────────────────────────────────────

/-- Mapping a row-transformer that preserves `is_current` preserves the
count of current rows. -/
theorem countP_map_flag (l : ProvidersTable)
    (f : ProviderRecord → ProviderRecord)
    (hf : ∀ r, (f r).is_current = r.is_current) :
    (l.map f).countP (fun r => r.is_current) =
      l.countP (fun r => r.is_current) := by
  rw [List.countP_map]
  apply List.countP_congr
  intro r _
  simp [hf r]

/-- Mapping a row-transformer that preserves `id` preserves the id
column. -/
theorem map_ids_of_preserve (l : ProvidersTable)
    (f : ProviderRecord → ProviderRecord)
    (hf : ∀ r, (f r).id = r.id) :
    (l.map f).map (fun r => r.id) = l.map (fun r => r.id) := by
  rw [List.map_map]
  apply List.map_congr_left
  intro r _
  simp [hf r]

/-- Upsert preserves the registry invariant. -/
theorem save_inv (table : ProvidersTable) (p : ProviderRecord)
    (h : RegistryInv table) : RegistryInv (save table p) := by
  obtain ⟨hn, hc⟩ := h
  rw [save]
  by_cases hany : (table.any fun r => r.id = p.id) = true
  · rw [if_pos hany]
    constructor
    · unfold NodupIds
      rw [map_ids_of_preserve]
      · exact hn
      · intro r; by_cases hr : r.id = p.id <;> simp [hr]
    · unfold currentCount
      rw [countP_map_flag]
      · exact hc
      · intro r; by_cases hr : r.id = p.id <;> simp [hr]
  · rw [if_neg hany]
    constructor
    · unfold NodupIds
      rw [List.map_append, List.nodup_append]
      refine ⟨hn, by simp, ?_⟩
      intro x hx
      simp only [List.mem_map] at hx
      obtain ⟨r, hr, hrid⟩ := hx
      simp only [List.any_eq_true, decide_eq_true_eq] at hany
      push_neg at hany
      simp only [List.map_cons, List.map_nil, List.mem_singleton]
      intro hxp
      exact hany r hr (hrid.trans hxp)
    · unfold currentCount at hc ⊢
      rw [List.countP_append]
      simpa using hc

/-- Counting current rows after clear-then-set equals counting rows
with the target id. -/
theorem countP_clear_set (table : ProvidersTable) (id : String) :
    ((table.map (fun r => { r with is_current := false })).map
      (fun r => if r.id = id then { r with is_current := true } else r)).countP
        (fun r => r.is_current) =
    table.countP (fun r => decide (r.id = id)) := by
  induction table with
  | nil => rfl
  | cons x xs ih =>
    simp only [List.map_cons, List.countP_cons, ih]
    by_cases hx : x.id = id <;> simp [hx]

/-- Activation preserves the registry invariant. -/
theorem set_current_inv (table : ProvidersTable) (id : String)
    (h : RegistryInv table) :
    RegistryInv (applyOp table (.setCurrent id)) := by
  obtain ⟨hn, hc⟩ := h
  rw [applyOp, set_current]
  by_cases hz : (table.countP fun r => r.id = id) = 0
  · rw [if_pos hz]
    exact ⟨hn, hc⟩
  · rw [if_neg hz]
    constructor
    · unfold NodupIds
      rw [map_ids_of_preserve, map_ids_of_preserve]
      · exact hn
      · intro r; rfl
      · intro r; by_cases hr : r.id = id <;> simp [hr]
    · unfold currentCount
      rw [countP_clear_set]
      have hcount : table.countP (fun q => decide (q.id = id)) =
          (table.map (fun r => r.id)).count id := by
        rw [List.count, List.countP_map]
        apply List.countP_congr
        intro r _
        simp
      rw [hcount]
      exact List.nodup_iff_count_le_one.mp hn id

/-- Deletion preserves the registry invariant. -/
theorem delete_inv (table : ProvidersTable) (id : String)
    (h : RegistryInv table) : RegistryInv (applyOp table (.del id)) := by
  obtain ⟨hn, hc⟩ := h
  rw [applyOp, delete]
  by_cases hcur : (((table.find? fun r => r.id = id).map
      fun r => r.is_current).getD false) = true
  · simp only [hcur, if_pos]
    exact ⟨hn, hc⟩
  · simp only [hcur, if_neg, Bool.false_eq_true, not_false_eq_true]
    constructor
    · unfold NodupIds at hn ⊢
      have hsub : (table.filter fun r => ¬ r.id = id).Sublist table :=
        List.filter_sublist table
      exact (hsub.map (fun r => r.id)).nodup hn
    · unfold currentCount
      calc ((table.filter fun r => ¬ r.id = id).countP fun r => r.is_current)
          ≤ table.countP fun r => r.is_current :=
            (List.filter_sublist table).countP_le _
        _ ≤ 1 := hc

/-- Every registry operation preserves the registry invariant. -/
theorem applyOp_inv (table : ProvidersTable) (op : RegOp)
    (h : RegistryInv table) : RegistryInv (applyOp table op) := by
  cases op with
  | save p => exact save_inv table p h
  | setCurrent id => exact set_current_inv table id h
  | del id => exact delete_inv table id h

-- ── Helper lemmas: switch orchestrator ───────────────────────────────────────

/-- The per-application loop accumulates exactly the expected error
list and never touches the providers table. -/
theorem foldl_switchApp (env : SwitchEnv) (apps : List String)
    (st : SwitchState) (errs : List SyncResult) :
    (apps.foldl (switchApp env) (st, errs)).2 =
      errs ++ expectedErrors env apps ∧
    (apps.foldl (switchApp env) (st, errs)).1.providers = st.providers := by
  induction apps generalizing st errs with
  | nil => simp [expectedErrors]
  | cons a as ih =>
    rw [List.foldl_cons]
    have hstep : ∀ st' errs', switchApp env (st', errs') a =
        (if env.installed a then
          match env.syncError a with
          | none =>
            ({ st' with
                journal := delete_backup
                  (match env.readSnapshot a with
                   | some content => save_backup st'.journal a content env.now
                   | none => st'.journal) a
                syncedApps := st'.syncedApps ++ [a] }, errs')
          | some e =>
            ({ st' with
                journal :=
                  (match env.readSnapshot a with
                   | some content => save_backup st'.journal a content env.now
                   | none => st'.journal)
                syncedApps := st'.syncedApps ++ [a] },
             errs' ++ [⟨a, false, some e⟩])
        else (st', errs')) := by
      intro st' errs'
      rw [switchApp]
    by_cases hins : env.installed a = true
    · cases hsync : env.syncError a with
      | none =>
        rw [hstep, if_pos hins, hsync]
        obtain ⟨h2, h1⟩ := ih _ errs
        refine ⟨?_, by rw [h1]⟩
        rw [h2]
        conv_rhs => rw [expectedErrors, List.filterMap_cons]
        simp [hins, hsync, expectedErrors]
      | some e =>
        rw [hstep, if_pos hins, hsync]
        obtain ⟨h2, h1⟩ := ih _ (errs ++ [⟨a, false, some e⟩])
        refine ⟨?_, by rw [h1]⟩
        rw [h2]
        conv_rhs => rw [expectedErrors, List.filterMap_cons]
        simp [hins, hsync, expectedErrors]
    · rw [hstep, if_neg hins]
      obtain ⟨h2, h1⟩ := ih st errs
      refine ⟨?_, by rw [h1]⟩
      rw [h2]
      conv_rhs => rw [expectedErrors, List.filterMap_cons]
      simp only [Bool.not_eq_true] at hins
      simp [hins, expectedErrors]

-- ── Helper lemmas: atomic writer ─────────────────────────────────────────────

/-- The retry loop entered at a live attempt index never falls out to
the trailing timeout return. -/
theorem retryFrom_ne_timeout (attempt : Nat → Option AttemptErr)
    (max_retries : Nat) :
    ∀ k i, max_retries - i ≤ k → i < max_retries →
      retryFrom attempt max_retries i ≠ .error .Timeout := by
  intro k
  induction k with
  | zero => intro i hk hi; omega
  | succ k ih =>
    intro i hk hi
    rw [retryFrom]
    simp only [dif_pos hi]
    cases hA : attempt i with
    | none => simp
    | some e =>
      by_cases hlt : i < max_retries - 1
      · simp only [if_pos hlt]
        exact ih (i + 1) (by omega) (by omega)
      · simp only [if_neg hlt]
        cases e <;> simp [AttemptErr.toWriteErr]

-- ── Helper lemmas: file-system model ─────────────────────────────────────────

/-- An existing file has readable content. -/
theorem readFile_of_fileExists (fs : FS) (p : String)
    (h : fileExists fs p = true) : ∃ c, readFile fs p = some c := by
  rw [fileExists, List.any_eq_true] at h
  obtain ⟨e, he, hp⟩ := h
  rw [readFile]
  cases hf : fs.find? (fun e => e.path = p) with
  | none =>
    rw [List.find?_eq_none] at hf
    exact absurd hp (hf e he)
  | some q => exact ⟨q.content, rfl⟩

/-- Reading back a just-written path yields the written content. -/
theorem readFile_writeEntry_same (fs : FS) (p c : String) (t : Nat) :
    readFile (writeEntry fs p c t) p = some c := by
  rw [writeEntry]
  by_cases h : (fs.any fun e => e.path = p) = true
  · rw [if_pos h]
    induction fs with
    | nil => simp at h
    | cons x xs ih =>
      by_cases hx : x.path = p
      · simp [readFile, List.find?_cons, hx]
      · have hxs : (xs.any fun e => e.path = p) = true := by
          rw [List.any_eq_true] at h ⊢
          obtain ⟨e, he, hp⟩ := h
          rcases List.mem_cons.mp he with rfl | hmem
          · exact absurd (by simpa using hp) hx
          · exact ⟨e, hmem, hp⟩
        have := ih hxs
        simpa [readFile, List.find?_cons, hx] using this
  · rw [if_neg h]
    rw [readFile, List.find?_append]
    have hnone : fs.find? (fun e => e.path = p) = none := by
      rw [List.find?_eq_none]
      intro e he
      simp only [List.any_eq_true] at h
      push_neg at h
      simpa using h e he
    simp [hnone]

/-- Replacing the entries of one path does not disturb lookups of a
different path. -/
theorem find?_map_replace (xs : List FileEntry) (p q c : String) (t : Nat)
    (hne : q ≠ p) :
    (xs.map (fun e => if e.path = p then ⟨p, c, t⟩ else e)).find?
        (fun e => e.path = q) = xs.find? (fun e => e.path = q) := by
  induction xs with
  | nil => rfl
  | cons x xs ih =>
    by_cases hx : x.path = p
    · simp only [List.map_cons, List.find?_cons, if_pos hx]
      have h2 : x.path ≠ q := by rw [hx]; exact Ne.symm hne
      simp [Ne.symm hne, h2, ih]
    · simp only [List.map_cons, List.find?_cons, if_neg hx]
      by_cases hxq : x.path = q
      · simp [hxq]
      · simp [hxq, ih]

/-- Writing one path does not disturb reads of a different path. -/
theorem readFile_writeEntry_other (fs : FS) (p q c : String) (t : Nat)
    (hne : q ≠ p) : readFile (writeEntry fs p c t) q = readFile fs q := by
  rw [writeEntry]
  by_cases h : (fs.any fun e => e.path = p) = true
  · rw [if_pos h, readFile, readFile, find?_map_replace fs p q c t hne]
  · rw [if_neg h, readFile, readFile, List.find?_append]
    cases hf : fs.find? (fun e => e.path = q) with
    | none => simp [List.find?_cons, Ne.symm hne]
    | some e => simp

/-- A path with a readable content exists. -/
theorem fileExists_of_readFile (fs : FS) (p c : String)
    (h : readFile fs p = some c) : fileExists fs p = true := by
  rw [readFile] at h
  cases hf : fs.find? (fun e => e.path = p) with
  | none => rw [hf] at h; simp at h
  | some q =>
    rw [fileExists, List.any_eq_true]
    have h3 := List.find?_some hf
    exact ⟨q, List.mem_of_find?_eq_some hf, h3⟩

/-- A nonempty suffix makes the backup path differ from the source. -/
theorem path_ne_path_append (path suffix : String) (h : suffix ≠ "") :
    path ≠ path ++ suffix := by
  intro heq
  have := congrArg String.length heq
  rw [String.length_append] at this
  have hz : suffix.length = 0 := by omega
  exact h (String.ext (by simpa [String.length] using List.length_eq_zero.mp hz))

/-- A timestamped backup path never collides with the "latest" backup
path. -/
theorem rotated_ne_latest (path suffix ts : String) :
    path ++ "." ++ ts ++ suffix ≠ path ++ suffix := by
  intro heq
  have := congrArg String.length heq
  simp only [String.length_append] at this
  have hdot : String.length "." = 1 := by decide
  omega

/-- Filtering by a predicate implied by the search predicate does not
change the first hit. -/
theorem find?_filter_of_imp (l : List FileEntry) (f g : FileEntry → Bool)
    (h : ∀ e ∈ l, f e = true → g e = true) :
    (l.filter g).find? f = l.find? f := by
  induction l with
  | nil => rfl
  | cons x xs ih =>
    have ih' := ih (fun e he hfe => h e (List.mem_cons_of_mem x he) hfe)
    by_cases hg : g x = true
    · rw [List.filter_cons, if_pos hg, List.find?_cons, List.find?_cons]
      cases hfx : f x with
      | true => rfl
      | false => exact ih'
    · have hf : f x = false := by
        cases hfx : f x with
        | true => exact absurd (h x (List.mem_cons_self x xs) hfx) hg
        | false => rfl
      rw [List.filter_cons, if_neg hg, List.find?_cons, hf]
      exact ih'

/-- The "latest" backup name is excluded from the rotation pattern. -/
theorem isRotatedName_latest_false (path suffix : String) :
    isRotatedName path suffix (path ++ suffix) = false := by
  simp [isRotatedName]

-- ── Helper lemmas: mtime sorting ─────────────────────────────────────────────

/-- Insertion produces a permutation of consing. -/
theorem insertByMtime_perm (l : List FileEntry) (e : FileEntry) :
    (insertByMtime l e).Perm (e :: l) := by
  induction l with
  | nil => exact List.Perm.refl _
  | cons x xs ih =>
    rw [insertByMtime]
    by_cases hx : x.mtime ≤ e.mtime
    · rw [if_pos hx]
      exact (ih.cons x).trans (List.Perm.swap e x xs)
    · rw [if_neg hx]

/-- Folding insertion over a list permutes the concatenation. -/
theorem foldl_insertByMtime_perm (l : List FileEntry) :
    ∀ acc, (l.foldl insertByMtime acc).Perm (acc ++ l) := by
  induction l with
  | nil => intro acc; simp
  | cons x xs ih =>
    intro acc
    rw [List.foldl_cons]
    refine (ih _).trans ?_
    refine ((insertByMtime_perm acc x).append_right xs).trans ?_
    exact List.perm_middle.symm

/-- Sorting by mtime permutes its input. -/
theorem sortByMtime_perm (l : List FileEntry) : (sortByMtime l).Perm l := by
  rw [sortByMtime]
  simpa using foldl_insertByMtime_perm l []

/-- Insertion preserves mtime-sortedness. -/
theorem pairwise_insertByMtime (l : List FileEntry) (e : FileEntry)
    (h : l.Pairwise (fun a b => a.mtime ≤ b.mtime)) :
    (insertByMtime l e).Pairwise (fun a b => a.mtime ≤ b.mtime) := by
  induction l with
  | nil => simp [insertByMtime]
  | cons x xs ih =>
    rw [insertByMtime]
    rcases List.pairwise_cons.mp h with ⟨hx, hxs⟩
    by_cases hxe : x.mtime ≤ e.mtime
    · rw [if_pos hxe]
      refine List.pairwise_cons.mpr ⟨?_, ih hxs⟩
      intro b hb
      have hmem : b = e ∨ b ∈ xs := by
        have := (insertByMtime_perm xs e).mem_iff.mp hb
        simpa using this
      rcases hmem with rfl | hbxs
      · exact hxe
      · exact hx b hbxs
    · rw [if_neg hxe]
      refine List.pairwise_cons.mpr ⟨?_, h⟩
      intro b hb
      rcases List.mem_cons.mp hb with rfl | hbxs
      · omega
      · have := hx b hbxs; omega

/-- The sort is ascending in mtime. -/
theorem sortByMtime_pairwise (l : List FileEntry) :
    (sortByMtime l).Pairwise (fun a b => a.mtime ≤ b.mtime) := by
  rw [sortByMtime]
  have hgen : ∀ (m acc : List FileEntry),
      acc.Pairwise (fun a b => a.mtime ≤ b.mtime) →
      (m.foldl insertByMtime acc).Pairwise (fun a b => a.mtime ≤ b.mtime) := by
    intro m
    induction m with
    | nil => intro acc hacc; exact hacc
    | cons x xs ih =>
      intro acc hacc
      rw [List.foldl_cons]
      exact ih _ (pairwise_insertByMtime acc x hacc)
  exact hgen l [] (by simp)

-- ── Helper lemmas: backup pruning ────────────────────────────────────────────

/-- Pruning never disturbs the content of a path outside the rotation
pattern — in particular the "latest" backup and the config file. -/
theorem cleanup_ok_read_nonrotated (env : BackupEnv) (l fs' : FS)
    (base suffix q : String)
    (hq : isRotatedName base suffix q = false)
    (hcl : cleanup_old_backups env l base suffix = .ok fs') :
    readFile fs' q = readFile l q := by
  rw [cleanup_old_backups] at hcl
  by_cases hrd : env.readDirOk = true
  · rw [if_pos hrd] at hcl
    by_cases hlen : (l.filter (fun e => isRotatedName base suffix e.path)).length
        ≤ BACKUP_RETAIN_COUNT
    · rw [if_pos hlen] at hcl
      cases hcl
      rfl
    · rw [if_neg hlen] at hcl
      cases hcl
      rw [readFile, readFile, find?_filter_of_imp]
      intro e he hfe
      have hpq : e.path = q := by simpa using hfe
      have hany : (((sortByMtime
          (l.filter (fun e => isRotatedName base suffix e.path))).take
            ((l.filter (fun e => isRotatedName base suffix e.path)).length -
              BACKUP_RETAIN_COUNT)).any (fun r => r.path = e.path)) = false := by
        rw [List.any_eq_false]
        intro r hr
        have hrs : r ∈ sortByMtime
            (l.filter (fun e => isRotatedName base suffix e.path)) :=
          List.take_subset _ _ hr
        have hrb : r ∈ l.filter (fun e => isRotatedName base suffix e.path) :=
          (sortByMtime_perm _).mem_iff.mp hrs
        have hrrot : isRotatedName base suffix r.path = true := by
          simpa using (List.mem_filter.mp hrb).2
        simp only [decide_eq_true_eq]
        intro hreq
        rw [hreq, hpq, hq] at hrrot
        exact absurd hrrot (by simp)
      simp [hany]
  · rw [if_neg hrd] at hcl
    simp at hcl

/-- Full behaviour of `cleanup_old_backups` when the directory listing
and every removal succeed: at most the retain count of rotated backups
survive, and every removed backup is at least as old as every survivor. -/
theorem cleanup_spec (env : BackupEnv) (l : FS) (base suffix : String)
    (hrd : env.readDirOk = true) (hrm : ∀ p, env.removeOk p = true)
    (hnd : (l.map (fun e => e.path)).Nodup) :
    ∃ fs', cleanup_old_backups env l base suffix = .ok fs' ∧
      (fs'.filter (fun e => isRotatedName base suffix e.path)).length ≤
        BACKUP_RETAIN_COUNT ∧
      ∀ r ∈ l, isRotatedName base suffix r.path = true → r ∉ fs' →
        ∀ k ∈ fs', isRotatedName base suffix k.path = true →
          r.mtime ≤ k.mtime := by
  rw [cleanup_old_backups, if_pos hrd]
  by_cases hlen : (l.filter (fun e => isRotatedName base suffix e.path)).length
      ≤ BACKUP_RETAIN_COUNT
  · rw [if_pos hlen]
    exact ⟨l, rfl, hlen, fun r hr _ hr' => absurd hr hr'⟩
  · rw [if_neg hlen]
    have hinj := List.inj_on_of_nodup_map hnd
    have hndl : l.Nodup := List.Nodup.of_map _ hnd
    set backups := l.filter (fun e => isRotatedName base suffix e.path) with hB
    set sorted := sortByMtime backups with hS
    set kcut := backups.length - BACKUP_RETAIN_COUNT with hK
    set toRemove := sorted.take kcut with hT
    have hperm : sorted.Perm backups := sortByMtime_perm backups
    have hbsub : ∀ e ∈ backups, e ∈ l := fun e he => List.mem_of_mem_filter he
    have hbrot : ∀ e ∈ backups, isRotatedName base suffix e.path = true :=
      fun e he => by simpa using (List.mem_filter.mp he).2
    have hndb : backups.Nodup := hndl.filter _
    have hnds : sorted.Nodup := (hperm.nodup_iff).mpr hndb
    have hsplit : sorted = toRemove ++ sorted.drop kcut :=
      (List.take_append_drop kcut sorted).symm
    have hdisj : ∀ a ∈ toRemove, a ∉ sorted.drop kcut := by
      have := hnds
      rw [hsplit, List.nodup_append] at this
      exact fun a ha hd => this.2.2 ha hd
    have hcross : ∀ a ∈ toRemove, ∀ b ∈ sorted.drop kcut,
        a.mtime ≤ b.mtime := by
      have hpw := sortByMtime_pairwise backups
      rw [← hS, hsplit, List.pairwise_append] at hpw
      exact hpw.2.2
    have hkeep_false : ∀ t ∈ toRemove,
        (¬ ((toRemove.any fun r => r.path = t.path) = true ∧
          env.removeOk t.path = true)) = False := by
      intro t ht
      simp only [eq_iff_iff, iff_false, not_not]
      exact ⟨List.any_eq_true.mpr ⟨t, ht, by simp⟩, hrm t.path⟩
    have hmem_toRemove_of_path : ∀ e ∈ l, ∀ t ∈ toRemove, t.path = e.path →
        e ∈ toRemove := by
      intro e he t ht hpath
      have hts : t ∈ sorted := List.take_subset _ _ ht
      have htb : t ∈ backups := hperm.mem_iff.mp hts
      have htl : t ∈ l := hbsub t htb
      have : t = e := hinj htl he hpath
      exact this ▸ ht
    have hkeep_true : ∀ e ∈ l, e ∉ toRemove →
        ((toRemove.any fun r => r.path = e.path) = false) := by
      intro e he hnot
      rw [List.any_eq_false]
      intro t ht
      simp only [decide_eq_true_eq]
      intro hpath
      exact hnot (hmem_toRemove_of_path e he t ht hpath)
    refine ⟨_, rfl, ?_, ?_⟩
    · have hcomm : (l.filter (fun e =>
            ¬ ((toRemove.any fun r => r.path = e.path) ∧
              env.removeOk e.path))).filter
            (fun e => isRotatedName base suffix e.path) =
          backups.filter (fun e =>
            ¬ ((toRemove.any fun r => r.path = e.path) ∧
              env.removeOk e.path)) := by
        rw [hB, List.filter_filter, List.filter_filter]
        apply List.filter_congr
        intro e _
        rw [Bool.and_comm]
      rw [hcomm]
      have hpf : (backups.filter (fun e =>
            ¬ ((toRemove.any fun r => r.path = e.path) ∧
              env.removeOk e.path))).length =
          (sorted.filter (fun e =>
            ¬ ((toRemove.any fun r => r.path = e.path) ∧
              env.removeOk e.path))).length :=
        (((hperm.symm).filter _)).length_eq
      rw [hpf]
      conv_lhs => rw [hsplit]
      rw [List.filter_append]
      have h1 : toRemove.filter (fun e =>
          ¬ ((toRemove.any fun r => r.path = e.path) ∧
            env.removeOk e.path)) = [] := by
        rw [List.filter_eq_nil_iff]
        intro t ht
        simp only [decide_eq_true_eq]
        rw [hkeep_false t ht]
        simp
      have h2 : (sorted.drop kcut).filter (fun e =>
          ¬ ((toRemove.any fun r => r.path = e.path) ∧
            env.removeOk e.path)) = sorted.drop kcut := by
        rw [List.filter_eq_self]
        intro b hb
        have hbl : b ∈ l := hbsub b (hperm.mem_iff.mp (List.drop_subset _ _ hb))
        have hbnot : b ∉ toRemove := fun hbt => hdisj b hbt hb
        simp only [decide_eq_true_eq]
        rw [hkeep_true b hbl hbnot]
        simp
      rw [h1, h2]
      have hslen : sorted.length = backups.length := hperm.length_eq
      rw [List.nil_append, List.length_drop, hslen]
      omega
    · intro r hr hrrot hrnot k hk hkrot
      have hkeepr : r ∈ toRemove := by
        by_contra hrt
        apply hrnot
        rw [List.mem_filter]
        refine ⟨hr, ?_⟩
        simp only [decide_eq_true_eq]
        rw [hkeep_true r hr hrt]
        simp
      have hkl : k ∈ l := List.mem_of_mem_filter hk
      have hkkeep := (List.mem_filter.mp hk).2
      have hkb : k ∈ backups := List.mem_filter.mpr ⟨hkl, by simpa using hkrot⟩
      have hks : k ∈ sorted := hperm.mem_iff.mpr hkb
      have hkd : k ∈ sorted.drop kcut := by
        rw [hsplit] at hks
        rcases List.mem_append.mp hks with hkt | hkd
        · exfalso
          have := hkeep_false k hkt
          simp only [decide_eq_true_eq] at hkkeep
          rw [this] at hkkeep
          exact hkkeep
        · exact hkd
      exact hcross r hkeepr k hkd

/-- Pruning returns `Ok` whenever the directory listing succeeds, no
matter which removals fail. -/
theorem cleanup_ok_of_readDirOk (env : BackupEnv) (l : FS)
    (base suffix : String) (hrd : env.readDirOk = true) :
    ∃ l2, cleanup_old_backups env l base suffix = .ok l2 := by
  rw [cleanup_old_backups, if_pos hrd]
  by_cases hlen : (l.filter (fun e => isRotatedName base suffix e.path)).length
      ≤ BACKUP_RETAIN_COUNT
  · rw [if_pos hlen]
    exact ⟨l, rfl⟩
  · rw [if_neg hlen]
    exact ⟨_, rfl⟩

/-- Rotation on an existing file returns `Ok` with the new timestamped
path whenever the directory listing succeeds, regardless of removal
failures. -/
theorem create_rotated_backup_ok (env : BackupEnv) (fs : FS)
    (path suffix ts : String) (now : Nat)
    (hrd : env.readDirOk = true) (hfile : fileExists fs path = true) :
    ∃ g, create_rotated_backup env fs path suffix ts now =
      (g, .ok (some (path ++ "." ++ ts ++ suffix))) := by
  obtain ⟨content, hc⟩ := readFile_of_fileExists fs path hfile
  rw [create_rotated_backup, if_pos hfile]
  simp only [hc]
  obtain ⟨l2, hok⟩ := cleanup_ok_of_readDirOk env _ path suffix hrd
  rw [hok]
  exact ⟨l2, rfl⟩

/-- A path absent from the file system is absent from the path column. -/
theorem not_mem_paths_of_not_exists (fs : FS) (p : String)
    (h : fileExists fs p = false) : p ∉ fs.map (fun e => e.path) := by
  intro hp
  obtain ⟨e, he, hep⟩ := List.mem_map.mp hp
  rw [fileExists, List.any_eq_false] at h
  have hne := h e he
  simp only [decide_eq_true_eq] at hne
  exact hne hep

/-- Appending an entry with a fresh path keeps the path column
duplicate-free. -/
theorem nodup_paths_append_one (fs : FS) (e : FileEntry)
    (hnd : (fs.map (fun x => x.path)).Nodup)
    (hni : e.path ∉ fs.map (fun x => x.path)) :
    ((fs ++ [e]).map (fun x => x.path)).Nodup := by
  rw [List.map_append, List.nodup_append]
  refine ⟨hnd, by simp, ?_⟩
  intro x hx
  simp only [List.map_cons, List.map_nil, List.mem_singleton]
  intro hxe
  exact hni (hxe ▸ hx)

/-- Writing a fresh path appends a new entry. -/
theorem writeEntry_append_of_not_exists (fs : FS) (p c : String) (t : Nat)
    (h : fileExists fs p = false) : writeEntry fs p c t = fs ++ [⟨p, c, t⟩] := by
  rw [writeEntry, if_neg]
  rw [fileExists] at h
  simp [h]

-- ── Claims ───────────────────────────────────────────────────────────────────

/-- Claim C1 — single-active-provider invariant: starting from a table
whose ids satisfy the primary-key constraint and which has at most one
current row, every sequence of `save` (upsert), `set_current` and
`delete` calls ends (and therefore passes through every intermediate
state, since the sequence is arbitrary) with at most one row whose
`is_current` flag is set; no operation produces two or more current
rows. -/
theorem single_active_provider (table : ProvidersTable)
    (h : RegistryInv table) (ops : List RegOp) :
    currentCount (ops.foldl applyOp table) ≤ 1 ∧
    RegistryInv (ops.foldl applyOp table) := by
  suffices hinv : RegistryInv (ops.foldl applyOp table) from ⟨hinv.2, hinv⟩
  induction ops generalizing table with
  | nil => exact h
  | cons op ops ih => exact ih (applyOp table op) (applyOp_inv table op h)

/-- Witness for claim C1 at a concrete two-row table and a concrete
operation sequence. -/
theorem single_active_provider_witness :
    currentCount ([RegOp.setCurrent "b", RegOp.del "a",
        RegOp.save ⟨"b", "B2", "u2", "k2", "m2", "pm", true, none, none, 1⟩].foldl
      applyOp
      [⟨"a", "A", "u", "k", "m", "pm", true, none, none, 0⟩,
       ⟨"b", "B", "u", "k", "m", "pm", false, none, none, 1⟩]) ≤ 1 ∧
    RegistryInv ([RegOp.setCurrent "b", RegOp.del "a",
        RegOp.save ⟨"b", "B2", "u2", "k2", "m2", "pm", true, none, none, 1⟩].foldl
      applyOp
      [⟨"a", "A", "u", "k", "m", "pm", true, none, none, 0⟩,
       ⟨"b", "B", "u", "k", "m", "pm", false, none, none, 1⟩]) :=
  single_active_provider _
    ⟨by unfold NodupIds; decide, by unfold currentCount; decide⟩ _

/-- Claim C2 — journal insert-if-absent: on a journal with no row for a
key, saving content `A` and then content `B` for that key leaves the
stored original equal to `A`; and a `save_backup` for a key that
already has a row changes nothing. -/
theorem journal_insert_if_absent (j : Journal) (ty A B t1 t2 : String)
    (habs : ∀ r ∈ j, r.app_type ≠ ty) :
    get_backup (save_backup (save_backup j ty A t1) ty B t2) ty = some A ∧
    ∀ (j' : Journal) (c t : String), (∃ r ∈ j', r.app_type = ty) →
      save_backup j' ty c t = j' := by
  constructor
  · have h1 : save_backup j ty A t1 = j ++ [⟨ty, A, t1⟩] := by
      rw [save_backup, if_neg]
      simp only [List.any_eq_true, decide_eq_true_eq, not_exists, not_and]
      exact habs
    have h2 : save_backup (j ++ [⟨ty, A, t1⟩]) ty B t2 = j ++ [⟨ty, A, t1⟩] := by
      rw [save_backup, if_pos]
      simp
    rw [h1, h2, get_backup, List.find?_append]
    have h3 : j.find? (fun r => r.app_type = ty) = none := by
      rw [List.find?_eq_none]
      intro r hr
      simpa using habs r hr
    simp [h3]
  · intro j' c t ⟨r, hr, hty⟩
    rw [save_backup, if_pos]
    simp only [List.any_eq_true, decide_eq_true_eq]
    exact ⟨r, hr, hty⟩

/-- Witness for claim C2 on the empty journal and the key used by the
spec's P5. -/
theorem journal_insert_if_absent_witness :
    get_backup (save_backup (save_backup [] "claude" "A" "t1")
      "claude" "B" "t2") "claude" = some "A" ∧
    ∀ (j' : Journal) (c t : String), (∃ r ∈ j', r.app_type = "claude") →
      save_backup j' "claude" c t = j' :=
  journal_insert_if_absent [] "claude" "A" "B" "t1" "t2" (by decide)

/-- Claim C3 — partial-failure semantics of the switch orchestrator:
when the target id resolves, the orchestrator returns `Ok`; the
per-application error list contains exactly one entry for each
installed application whose adapter sync failed, in the fixed
application order (so one failure never blocks later applications);
the providers table afterwards is the clear-then-set table of
`set_current target` (invoked regardless of how many syncs failed);
and the result's `success` flag is true exactly when the error list
is empty. -/
theorem switch_partial_failure (env : SwitchEnv) (st : SwitchState)
    (id : String) (p : ProviderRecord) (hmem : p ∈ st.providers)
    (hid : p.id = id) :
    ∃ st' res, switch_provider env st id = (st', .ok res) ∧
      res.errors = expectedErrors env switchApps ∧
      st'.providers =
        (st.providers.map (fun r => { r with is_current := false })).map
          (fun r => if r.id = id then { r with is_current := true } else r) ∧
      (res.success = true ↔ res.errors = []) := by
  have hfind : ∃ q, st.providers.find? (fun r => r.id = id) = some q := by
    cases hf : st.providers.find? (fun r => r.id = id) with
    | none =>
      rw [List.find?_eq_none] at hf
      exact absurd (by simpa using hid) (by simpa using hf p hmem)
    | some q => exact ⟨q, rfl⟩
  obtain ⟨q, hq⟩ := hfind
  obtain ⟨herr, hprov⟩ := foldl_switchApp env switchApps st []
  have hcount : ¬ (st.providers.countP fun r => r.id = id) = 0 := by
    have : 0 < st.providers.countP fun r => r.id = id :=
      List.countP_pos_iff.mpr ⟨p, hmem, by simpa using hid⟩
    omega
  rw [switch_provider, hq]
  simp only [set_current, hprov, if_neg hcount]
  refine ⟨_, _, rfl, by simpa using herr, rfl, ?_⟩
  simp [List.isEmpty_iff]

/-- Witness for claim C3: one provider, `claude` and `gemini`
installed, the `gemini` sync forced to fail. -/
theorem switch_partial_failure_witness :
    ∃ st' res,
      switch_provider
        ⟨fun a => a == "claude" || a == "gemini", fun _ => some "snap",
         fun a => if a == "gemini" then some "boom" else none, "t"⟩
        ⟨[⟨"p1", "P", "u", "k", "m", "pm", false, none, none, 0⟩], [], []⟩
        "p1" = (st', .ok res) ∧
      res.errors = expectedErrors
        ⟨fun a => a == "claude" || a == "gemini", fun _ => some "snap",
         fun a => if a == "gemini" then some "boom" else none, "t"⟩
        switchApps ∧
      st'.providers =
        (([⟨"p1", "P", "u", "k", "m", "pm", false, none, none, 0⟩] :
            ProvidersTable).map
          (fun r => { r with is_current := false })).map
          (fun r => if r.id = "p1" then { r with is_current := true } else r) ∧
      (res.success = true ↔ res.errors = []) :=
  switch_partial_failure _ _ "p1"
    ⟨"p1", "P", "u", "k", "m", "pm", false, none, none, 0⟩ (by decide) rfl

/-- Claim C4 — fail-fast on an unknown target: when no provider has
the requested id, `switch_provider` returns the not-found error and
the returned state equals the input state — the journal, the providers
table and the trace of adapter sync invocations (the only writers of
config files) are all untouched. -/
theorem switch_fail_fast (env : SwitchEnv) (st : SwitchState) (id : String)
    (habs : ∀ p ∈ st.providers, p.id ≠ id) :
    switch_provider env st id = (st, .error (notFoundMsg id)) := by
  have hf : st.providers.find? (fun p => p.id = id) = none := by
    rw [List.find?_eq_none]
    intro p hp
    simpa using habs p hp
  rw [switch_provider, hf]

/-- Witness for claim C4 at a concrete state and unknown id. -/
theorem switch_fail_fast_witness :
    switch_provider ⟨fun _ => true, fun _ => none, fun _ => none, "t"⟩
      ⟨[⟨"p1", "P", "u", "k", "m", "pm", true, none, none, 0⟩], [], []⟩ "zz" =
    (⟨[⟨"p1", "P", "u", "k", "m", "pm", true, none, none, 0⟩], [], []⟩,
     .error (notFoundMsg "zz")) :=
  switch_fail_fast _ _ "zz" (by decide)

/-- Claim C5 — the claim (and the code's own doc comment) says the
recovery procedure falls back to the adapter's backup-file restore
when the verbatim snapshot write-back fails; the code does not: with a
pending `claude` row whose write-back fails and a module restore that
would succeed, recovery leaves the row, reports the step failed, and
never invokes the backup-file restore (`viaModule` absent from the
trace). -/
theorem recover_no_fallback_on_write_failure :
    recover_from_crash recoverEnvNoFallback [⟨"claude", "ORIGINAL", "t"⟩] =
      ([⟨"claude", "ORIGINAL", "t"⟩], [RestoreCall.snap "claude"]) ∧
    RestoreCall.viaModule "claude" ∉
      (recover_from_crash recoverEnvNoFallback
        [⟨"claude", "ORIGINAL", "t"⟩]).2 := by
  constructor
  · rfl
  · decide

/-- Claim C6 — delete guard with atomicity: deleting the id of a
current row returns the provider-in-use error, and applying the
operation leaves the table exactly as it was (no field modified, no
record removed). -/
theorem delete_guard (table : ProvidersTable) (id : String)
    (r : ProviderRecord) (hnodup : NodupIds table) (hmem : r ∈ table)
    (hid : r.id = id) (hcur : r.is_current = true) :
    delete table id = .error providerInUseMsg ∧
    applyOp table (.del id) = table := by
  have hfind : table.find? (fun q => q.id = id) = some r := by
    cases hf : table.find? (fun q => q.id = id) with
    | none =>
      rw [List.find?_eq_none] at hf
      exact absurd (by simpa using hid) (by simpa using hf r hmem)
    | some q =>
      have hqmem := List.mem_of_find?_eq_some hf
      have hqid : q.id = id := by simpa using List.find?_some hf
      have := List.inj_on_of_nodup_map hnodup hqmem hmem (by rw [hqid, hid])
      rw [this]
  have hdel : delete table id = .error providerInUseMsg := by
    rw [delete]
    simp [hfind, hcur]
  exact ⟨hdel, by rw [applyOp, hdel]⟩

/-- Witness for claim C6 at a concrete one-row table whose row is
current. -/
theorem delete_guard_witness :
    delete [⟨"a", "A", "u", "k", "m", "pm", true, none, none, 0⟩] "a" =
      .error providerInUseMsg ∧
    applyOp [⟨"a", "A", "u", "k", "m", "pm", true, none, none, 0⟩]
      (.del "a") =
      [⟨"a", "A", "u", "k", "m", "pm", true, none, none, 0⟩] :=
  delete_guard _ "a" ⟨"a", "A", "u", "k", "m", "pm", true, none, none, 0⟩
    (by unfold NodupIds; decide) (by decide) rfl rfl

/-- Claim C7 — one-shot "latest" backup: when the "latest" backup
(`path ++ suffix`) already exists, `create_backup` changes nothing and
`create_rotated_backup` leaves the "latest" backup's content
untouched; hence backing up a file with content `A`, changing the file
to `B`, and backing up again leaves the "latest" backup equal to `A`,
the content at the time of the first call. -/
theorem backup_latest_one_shot (env : BackupEnv) (fs fs0 : FS)
    (path suffix ts A B : String) (t1 t2 t3 : Nat)
    (hex : fileExists fs (path ++ suffix) = true)
    (hsuf : suffix ≠ "")
    (h0r : readFile fs0 path = some A)
    (h0b : fileExists fs0 (path ++ suffix) = false) :
    create_backup fs path suffix t1 = fs ∧
    readFile (create_rotated_backup env fs path suffix ts t1).1 (path ++ suffix)
      = readFile fs (path ++ suffix) ∧
    readFile (create_backup (writeEntry (create_backup fs0 path suffix t1)
      path B t2) path suffix t3) (path ++ suffix) = some A := by
  have hlatne : path ++ suffix ≠ path ++ "." ++ ts ++ suffix :=
    Ne.symm (rotated_ne_latest path suffix ts)
  refine ⟨?_, ?_, ?_⟩
  · rw [create_backup]
    by_cases hp : fileExists fs path = true
    · rw [if_pos hp, if_pos hex]
    · rw [if_neg hp]
  · rw [create_rotated_backup]
    by_cases hp : fileExists fs path = true
    · obtain ⟨content, hc⟩ := readFile_of_fileExists fs path hp
      rw [if_pos hp]
      simp only [hc, hex, if_true]
      cases hcl : cleanup_old_backups env
          (writeEntry fs (path ++ "." ++ ts ++ suffix) content t1)
          path suffix with
      | error e =>
        simp only [hcl]
        exact readFile_writeEntry_other fs _ _ content t1 hlatne
      | ok fs3 =>
        simp only [hcl]
        rw [cleanup_ok_read_nonrotated env _ fs3 path suffix (path ++ suffix)
          (isRotatedName_latest_false path suffix) hcl]
        exact readFile_writeEntry_other fs _ _ content t1 hlatne
    · rw [if_neg hp]
  · have hp0 : fileExists fs0 path = true :=
      fileExists_of_readFile fs0 path A h0r
    have hne1 : path ≠ path ++ suffix := path_ne_path_append path suffix hsuf
    have hfs1 : create_backup fs0 path suffix t1 =
        writeEntry fs0 (path ++ suffix) A t1 := by
      rw [create_backup, if_pos hp0, if_neg (by simp [h0b])]
      simp only [h0r]
    rw [hfs1]
    have hr2 : readFile (writeEntry (writeEntry fs0 (path ++ suffix) A t1)
        path B t2) (path ++ suffix) = some A := by
      rw [readFile_writeEntry_other _ path (path ++ suffix) B t2 (Ne.symm hne1)]
      exact readFile_writeEntry_same fs0 (path ++ suffix) A t1
    have hex2 : fileExists (writeEntry (writeEntry fs0 (path ++ suffix) A t1)
        path B t2) (path ++ suffix) = true :=
      fileExists_of_readFile _ _ A hr2
    rw [create_backup]
    by_cases hp2 : fileExists (writeEntry (writeEntry fs0 (path ++ suffix) A t1)
        path B t2) path = true
    · rw [if_pos hp2, if_pos hex2]
      exact hr2
    · rw [if_neg hp2]
      exact hr2

/-- Witness for claim C7 at concrete file systems. -/
theorem backup_latest_one_shot_witness :
    create_backup [⟨"f", "CUR", 5⟩, ⟨"f" ++ ".bak", "ORIG", 1⟩] "f" ".bak" 9 =
      [⟨"f", "CUR", 5⟩, ⟨"f" ++ ".bak", "ORIG", 1⟩] ∧
    readFile (create_rotated_backup ⟨true, fun _ => true⟩
        [⟨"f", "CUR", 5⟩, ⟨"f" ++ ".bak", "ORIG", 1⟩] "f" ".bak" "TS" 9).1
        ("f" ++ ".bak") =
      readFile [⟨"f", "CUR", 5⟩, ⟨"f" ++ ".bak", "ORIG", 1⟩] ("f" ++ ".bak") ∧
    readFile (create_backup (writeEntry
      (create_backup [⟨"f", "A", 0⟩] "f" ".bak" 9) "f" "B" 2) "f" ".bak" 3)
      ("f" ++ ".bak") = some "A" :=
  backup_latest_one_shot ⟨true, fun _ => true⟩
    [⟨"f", "CUR", 5⟩, ⟨"f" ++ ".bak", "ORIG", 1⟩] [⟨"f", "A", 0⟩]
    "f" ".bak" "TS" "A" "B" 9 2 3 (by decide) (by decide) (by decide)
    (by decide)

/-- Claim C8 — upsert never changes the active flag: for an existing
id, `save` leaves the `(id, is_current)` column of every row exactly
as it was; for a fresh id it appends the row with `is_current = false`
regardless of the caller-supplied value. -/
theorem upsert_preserves_current_flags (table : ProvidersTable)
    (p : ProviderRecord) :
    if table.any (fun r => r.id = p.id) then
      (save table p).map (fun r => (r.id, r.is_current)) =
        table.map (fun r => (r.id, r.is_current))
    else
      (save table p).map (fun r => (r.id, r.is_current)) =
        table.map (fun r => (r.id, r.is_current)) ++ [(p.id, false)] := by
  by_cases h : (table.any fun r => r.id = p.id) = true
  · rw [if_pos h, save, if_pos h, List.map_map]
    apply List.map_congr_left
    intro r _
    by_cases hr : r.id = p.id <;> simp [hr]
  · rw [if_neg h, save, if_neg h]
    simp

/-- Claim C9 (as stated) is false: a pruning failure can surface from
`create_rotated_backup`.  With an existing file and a directory
listing that fails, the rotation returns the pruning error instead of
swallowing it. -/
theorem rotated_backup_error_on_read_dir_failure :
    (create_rotated_backup ⟨false, fun _ => true⟩ [⟨"f", "C", 0⟩]
      "f" ".bak" "TS" 1).2 = .error (.Other "Failed to read dir") := by
  rfl

/-- Claim C9 (amended) — backup pruning: when the directory listing
succeeds and every removal succeeds, a `create_rotated_backup` on an
existing file returns `Ok` with the new timestamped path, leaves at
most `BACKUP_RETAIN_COUNT` timestamped backups for the base path, and
every pruned backup is no newer (by mtime) than every retained one;
moreover, with a listing that succeeds the call returns `Ok` no matter
which individual removals fail (removal failures are only logged) —
but a directory-listing failure during pruning propagates (see the
counterexample). -/
theorem rotated_backup_prunes (env : BackupEnv) (fs : FS)
    (path suffix ts : String) (now : Nat)
    (hrd : env.readDirOk = true) (hrm : ∀ p, env.removeOk p = true)
    (hnd : (fs.map (fun e => e.path)).Nodup)
    (hfile : fileExists fs path = true)
    (hfresh : fileExists fs (path ++ "." ++ ts ++ suffix) = false) :
    (∃ fs', create_rotated_backup env fs path suffix ts now =
        (fs', .ok (some (path ++ "." ++ ts ++ suffix))) ∧
      (fs'.filter (fun e => isRotatedName path suffix e.path)).length ≤
        BACKUP_RETAIN_COUNT ∧
      ∀ r ∈ fs, isRotatedName path suffix r.path = true → r ∉ fs' →
        ∀ k ∈ fs', isRotatedName path suffix k.path = true →
          r.mtime ≤ k.mtime) ∧
    ∀ env2 : BackupEnv, env2.readDirOk = true →
      ∃ g, create_rotated_backup env2 fs path suffix ts now =
        (g, .ok (some (path ++ "." ++ ts ++ suffix))) := by
  refine ⟨?_, fun env2 hrd2 =>
    create_rotated_backup_ok env2 fs path suffix ts now hrd2 hfile⟩
  obtain ⟨content, hc⟩ := readFile_of_fileExists fs path hfile
  rw [create_rotated_backup, if_pos hfile]
  simp only [hc]
  cases hlat : fileExists fs (path ++ suffix) with
  | true =>
    simp only [eq_self_iff_true, if_true]
    rw [writeEntry_append_of_not_exists fs (path ++ "." ++ ts ++ suffix)
      content now hfresh]
    have hnd2 : ((fs ++ [(⟨path ++ "." ++ ts ++ suffix, content, now⟩ :
        FileEntry)]).map (fun e => e.path)).Nodup := by
      apply nodup_paths_append_one fs
        (⟨path ++ "." ++ ts ++ suffix, content, now⟩ : FileEntry) hnd
      exact not_mem_paths_of_not_exists fs (path ++ "." ++ ts ++ suffix) hfresh
    obtain ⟨fs3, hok, hcount, hold⟩ :=
      cleanup_spec env
        (fs ++ [(⟨path ++ "." ++ ts ++ suffix, content, now⟩ : FileEntry)])
        path suffix hrd hrm hnd2
    rw [hok]
    refine ⟨fs3, rfl, hcount, ?_⟩
    intro r hr hrot hrnot k hk hkrot
    exact hold r (List.mem_append_left _ hr) hrot hrnot k hk hkrot
  | false =>
    simp only [Bool.false_eq_true, if_false]
    rw [writeEntry_append_of_not_exists fs (path ++ suffix) content now hlat]
    have hfr1 : fileExists
        (fs ++ [(⟨path ++ suffix, content, now⟩ : FileEntry)])
        (path ++ "." ++ ts ++ suffix) = false := by
      rw [fileExists, List.any_append]
      rw [fileExists] at hfresh
      have hne : path ++ suffix ≠ path ++ "." ++ ts ++ suffix :=
        Ne.symm (rotated_ne_latest path suffix ts)
      simp [hfresh, hne]
    rw [writeEntry_append_of_not_exists
      (fs ++ [(⟨path ++ suffix, content, now⟩ : FileEntry)])
      (path ++ "." ++ ts ++ suffix) content now hfr1]
    have hnd1 : ((fs ++ [(⟨path ++ suffix, content, now⟩ : FileEntry)]).map
        (fun e => e.path)).Nodup := by
      apply nodup_paths_append_one fs
        (⟨path ++ suffix, content, now⟩ : FileEntry) hnd
      exact not_mem_paths_of_not_exists fs (path ++ suffix) hlat
    have hnd2 : (((fs ++ [(⟨path ++ suffix, content, now⟩ : FileEntry)]) ++
        [(⟨path ++ "." ++ ts ++ suffix, content, now⟩ : FileEntry)]).map
        (fun e => e.path)).Nodup := by
      apply nodup_paths_append_one
        (fs ++ [(⟨path ++ suffix, content, now⟩ : FileEntry)])
        (⟨path ++ "." ++ ts ++ suffix, content, now⟩ : FileEntry) hnd1
      exact not_mem_paths_of_not_exists
        (fs ++ [(⟨path ++ suffix, content, now⟩ : FileEntry)])
        (path ++ "." ++ ts ++ suffix) hfr1
    obtain ⟨fs3, hok, hcount, hold⟩ :=
      cleanup_spec env
        ((fs ++ [(⟨path ++ suffix, content, now⟩ : FileEntry)]) ++
          [(⟨path ++ "." ++ ts ++ suffix, content, now⟩ : FileEntry)])
        path suffix hrd hrm hnd2
    rw [hok]
    refine ⟨fs3, rfl, hcount, ?_⟩
    intro r hr hrot hrnot k hk hkrot
    exact hold r (List.mem_append_left _ (List.mem_append_left _ hr))
      hrot hrnot k hk hkrot

/-- Witness for the amended claim C9 at a concrete one-file system. -/
theorem rotated_backup_prunes_witness :
    (∃ fs', create_rotated_backup ⟨true, fun _ => true⟩ [⟨"f", "C", 0⟩]
        "f" ".bak" "TS" 1 =
        (fs', .ok (some ("f" ++ "." ++ "TS" ++ ".bak"))) ∧
      (fs'.filter (fun e => isRotatedName "f" ".bak" e.path)).length ≤
        BACKUP_RETAIN_COUNT ∧
      ∀ r ∈ ([⟨"f", "C", 0⟩] : FS), isRotatedName "f" ".bak" r.path = true →
        r ∉ fs' → ∀ k ∈ fs', isRotatedName "f" ".bak" k.path = true →
          r.mtime ≤ k.mtime) ∧
    ∀ env2 : BackupEnv, env2.readDirOk = true →
      ∃ g, create_rotated_backup env2 [⟨"f", "C", 0⟩] "f" ".bak" "TS" 1 =
        (g, .ok (some ("f" ++ "." ++ "TS" ++ ".bak"))) :=
  rotated_backup_prunes ⟨true, fun _ => true⟩ [⟨"f", "C", 0⟩] "f" ".bak" "TS" 1
    rfl (fun _ => rfl) (by decide) (by decide) (by decide)

/-- Claim C10 — the atomic writer's trailing timeout return is
unreachable: with at least one attempt allowed,
`atomic_write_with_retry` never yields the `Timeout` error (it
succeeds, or returns the final attempt's typed error, or the
directory-creation error), and in particular the default five-attempt
`atomic_write` never yields `Timeout`. -/
theorem atomic_write_no_timeout (dirOk : Bool)
    (attempt : Nat → Option AttemptErr) (max_retries : Nat)
    (hmr : 1 ≤ max_retries) :
    atomic_write_with_retry dirOk attempt max_retries ≠ .error .Timeout ∧
    atomic_write dirOk attempt ≠ .error .Timeout := by
  constructor
  · rw [atomic_write_with_retry]
    cases dirOk with
    | true =>
      simp only [if_pos rfl]
      exact retryFrom_ne_timeout attempt max_retries max_retries 0
        (by omega) (by omega)
    | false => simp
  · rw [atomic_write, atomic_write_with_retry]
    cases dirOk with
    | true =>
      simp only [if_pos rfl]
      exact retryFrom_ne_timeout attempt 5 5 0 (by omega) (by omega)
    | false => simp

/-- Witness for claim C10: an always-failing write attempt at the
default retry bound. -/
theorem atomic_write_no_timeout_witness :
    atomic_write_with_retry true (fun _ => some AttemptErr.FileWriteFailed) 5 ≠
      .error .Timeout ∧
    atomic_write true (fun _ => some AttemptErr.FileWriteFailed) ≠
      .error .Timeout :=
  atomic_write_no_timeout true (fun _ => some AttemptErr.FileWriteFailed) 5
    (by decide)

end HajimiSync
